import Mathlib

/-!
Verification of the drydotai client library's authentication / token-store
component and item-attribute lookup, as a shallow embedding of the Python
source (src/drydotai/auth.py, src/drydotai/client.py, src/drydotai/__init__.py).

Strings are Lean `String`s; the `.env` file is modelled as its raw text
content (an `Option String`, `none` meaning the file does not exist), and
Python's line handling (`readlines`, `strip`, `startswith`, `split('=', 1)`)
is reimplemented character-by-character so that the byte-level behaviour of
the token file is preserved.  The process environment entry for the token is
an `Option String`, and file I/O failure (unreadable/unwritable file) is a
boolean on the store state, with the source's try/except structure translated
explicitly.
-/

/-! ## Python string primitives -/

/-- ASCII whitespace recognised by Python's `str.strip()`. -/
def isPySpace (c : Char) : Bool :=
  c = ' ' || c = '\t' || c = '\n' || c = '\r' || c = '\x0b' || c = '\x0c'

/-- Python `str.startswith`: does the first list start with the second? -/
def listStartsWith : List Char → List Char → Bool
  | _, [] => true
  | [], _ :: _ => false
  | c :: cs, p :: ps => c = p && listStartsWith cs ps

/-- Right-strip: remove trailing Python whitespace from a character list. -/
def rstripOnly (l : List Char) : List Char :=
  (l.reverse.dropWhile isPySpace).reverse

/-- Python `str.strip()` on a character list: drop leading and trailing whitespace. -/
def pyStripL (l : List Char) : List Char :=
  rstripOnly (l.dropWhile isPySpace)

/-- Everything after the first `'='`, i.e. `line.split('=', 1)[1]` when a `'='`
is present (the callers only use it on lines that start with `KEY=`). -/
def afterFirstEq : List Char → List Char
  | [] => []
  | c :: cs => if c = '=' then cs else afterFirstEq cs

/-- Python `file.readlines` worker: split after every `'\n'` (keeping it),
with a final newline-less chunk kept as a last line.  `acc` holds the current
line's characters in reverse. -/
def readlinesAux : List Char → List Char → List String
  | [], acc => if acc = [] then [] else [String.mk acc.reverse]
  | c :: cs, acc =>
    if c = '\n' then String.mk (acc.reverse ++ ['\n']) :: readlinesAux cs []
    else readlinesAux cs (c :: acc)

/-- Python `file.readlines()` on the raw file content. -/
def readlines (c : String) : List String := readlinesAux c.data []

/-- Python `file.writelines`: concatenate the lines back into raw content. -/
def joinLines (lines : List String) : String :=
  lines.foldr (fun l acc => l ++ acc) ""

/-- Does the string end with a `'\n'` (Python `line.endswith('\n')`)? -/
def endsWithNl (l : String) : Bool := l.data.getLast? = some '\n'

/-! ## Token store constants and per-line operations (src/drydotai/auth.py) -/

/-- The environment key `DRY_AI_TOKEN` (auth.py line 9). -/
def ENV_TOKEN_KEY : String := "DRY_AI_TOKEN"

/-- The characters of the active-assignment marker `DRY_AI_TOKEN=`. -/
def tokPat : List Char := (ENV_TOKEN_KEY ++ "=").data

/-- The characters of the commented-assignment marker `# DRY_AI_TOKEN=`. -/
def comPat : List Char := ("# " ++ ENV_TOKEN_KEY ++ "=").data

/-- A fresh active token assignment line, `f'{ENV_TOKEN_KEY}={token}\n'`
(auth.py lines 75 and 85). -/
def tokLine (t : String) : String := ENV_TOKEN_KEY ++ "=" ++ t ++ "\n"

/-- Does the stripped line start with the active or commented token marker
(auth.py line 74 and line 231/299)? -/
def isTokenLine (l : String) : Bool :=
  listStartsWith (pyStripL l.data) tokPat || listStartsWith (pyStripL l.data) comPat

/-- The newline normalisation applied to kept lines by `_save_token_to_env`
(auth.py lines 78-80): a nonempty line not ending in `'\n'` gets one appended. -/
def ensureNl (l : String) : String :=
  if l = "" then l else if endsWithNl l then l else l ++ "\n"

/-! ## The token store state -/

/-- The mutable state the token store touches: the `DRY_AI_TOKEN` process
environment entry, the raw `.env` file content (`none` when the file does not
exist), the `_DryAIAuth.current_token` field, and whether file I/O succeeds
(`ioOk = false` models an unreadable/unwritable file, whose exceptions the
source catches). -/
structure Store where
  env : Option String
  file : Option String
  current : Option String
  ioOk : Bool
deriving DecidableEq

/-- The lines read back from the `.env` file at the start of
`_save_token_to_env` (auth.py lines 58-67): `[]` when the file is missing or
reading raises. -/
def envLines (s : Store) : List String :=
  match s.file with
  | none => []
  | some c => if s.ioOk then readlines c else []

/-- The line-rewriting loop of `_save_token_to_env` (auth.py lines 70-81):
replace every active or commented token line by the fresh assignment, keep
every other line after newline normalisation, and report whether any token
line was found. -/
def rewriteLines (token : String) : List String → List String × Bool
  | [] => ([], false)
  | l :: rest =>
    let r := rewriteLines token rest
    if isTokenLine l then (tokLine token :: r.1, true) else (ensureNl l :: r.1, r.2)

/-- The full new line list written by `_save_token_to_env` (auth.py
lines 70-85): the rewritten lines, with a fresh assignment appended when no
token line was found. -/
def updatedLines (token : String) (lines : List String) : List String :=
  let r := rewriteLines token lines
  if r.2 then r.1 else r.1 ++ [tokLine token]

/-- `_DryAIAuth._save_token_to_env` (auth.py lines 56-96): rewrite the `.env`
file, then set the process environment entry and `current_token`; a write
failure raises `Exception("Failed to save token to .env file: ...")` and
leaves the state unchanged. -/
def _save_token_to_env (token : String) (s : Store) : Except String Store :=
  let newLines := updatedLines token (envLines s)
  if s.ioOk then
    .ok { env := some token, file := some (joinLines newLines),
          current := some token, ioOk := s.ioOk }
  else .error "Failed to save token to .env file"

/-- The file scan of `get_stored_token` (auth.py lines 263-267): return the
value of the first line whose stripped form starts with `DRY_AI_TOKEN=`. -/
def scanLines : List String → Option String
  | [] => none
  | l :: rest =>
    let st := pyStripL l.data
    if listStartsWith st tokPat then some (String.mk (afterFirstEq st)) else scanLines rest

/-- The `.env`-file half of `get_stored_token` (auth.py lines 261-270): `none`
when the file is missing or reading raises (the exception is swallowed). -/
def fileTokenLookup (s : Store) : Option String :=
  match s.file with
  | none => none
  | some c => if s.ioOk then scanLines (readlines c) else none

/-- `get_stored_token` (auth.py lines 252-270): a nonempty environment entry
wins; otherwise scan the `.env` file. -/
def get_stored_token (s : Store) : Option String :=
  match s.env with
  | some t => if t = "" then fileTokenLookup s else some t
  | none => fileTokenLookup s

/-- `clear_stored_token` (auth.py lines 280-310): delete the environment
entry; when the file exists and I/O succeeds, drop every active or commented
token line and write the rest back verbatim; file I/O errors are caught and
only logged. -/
def clear_stored_token (s : Store) : Store :=
  match s.file with
  | none => { s with env := none }
  | some c =>
    if s.ioOk then
      { s with env := none,
               file := some (joinLines ((readlines c).filter (fun l => !isTokenLine l))) }
    else { s with env := none }

/-- Does the `.env` file currently contain an active or commented token line? -/
def hasTokenLine (s : Store) : Bool :=
  match s.file with
  | none => false
  | some c => (readlines c).any isTokenLine

/-! ## Package initializer (src/drydotai/__init__.py vs src/drydotai/client.py) -/

/-- The top-level names defined by module `drydotai.client` (client.py):
its imports, the two classes, the helper, the module-global client and the
four public functions.  (`load_dotenv` is bound only when the optional
`dotenv` dependency is installed and is omitted; no name resembling
`Smartspace` is defined either way.) -/
def clientModuleNames : List String :=
  ["json", "os", "getpass", "requests", "Optional", "Dict", "Any", "List",
   "Union", "urlencode", "DryAIItem", "DryAIClient", "Space",
   "_get_auth_token", "_client", "create_space", "get_space",
   "get_space_by_id", "set_verbose_logging"]

/-- The names `__init__.py` lines 5-12 request from `drydotai.client`. -/
def initImportNames : List String :=
  ["Smartspace", "DryAIItem", "create_smartspace", "get_smartspace",
   "get_smartspace_by_id", "set_verbose_logging"]

/-- Python `from M import a, b, ...`: binds the names in order and raises
`ImportError` at the first requested name the module does not define. -/
def fromImport (defined requested : List String) : Except String Unit :=
  match requested.find? (fun n => !(defined.contains n)) with
  | some n => .error ("ImportError: cannot import name " ++ n)
  | none => .ok ()

/-- Executing `drydotai/__init__.py`: its first statement is the from-import
of `initImportNames` out of `drydotai.client`; if that raises, the package
initialization fails and nothing later in the file (the `.auth` names,
`__all__`) is reached. -/
def packageInit : Except String Unit := fromImport clientModuleNames initImportNames


/-! ## Authentication flow (src/drydotai/auth.py) -/

/-- The parsed JSON body of a `register-user` response (auth.py lines 113-122).
`none` fields model absent keys. -/
structure RegResponse where
  success : Bool
  userId : Option String
  isExistingUser : Bool
  message : Option String
deriving DecidableEq

/-- The parsed JSON body of a `verify-email` response (auth.py lines 148-168). -/
structure VerifyResponse where
  success : Bool
  verified : Bool
  mcpToken : Option String
  message : Option String
  userCreated : Bool
deriving DecidableEq

/-- `_DryAIAuth.register_or_login` (auth.py lines 98-129).  The remote
interaction is a parameter: `net` is the parsed 2xx response body, or the
message of a transport/JSON failure.  A transport failure is re-raised as
`Registration request failed: ...`; a 2xx body with a false `success` flag
raises the server message (default `Registration failed`). -/
def register_or_login (net : Except String RegResponse) : Except String RegResponse :=
  match net with
  | .error e => .error ("Registration request failed: " ++ e)
  | .ok data => if data.success then .ok data else .error (data.message.getD "Registration failed")

/-- `_DryAIAuth.verify_email` (auth.py lines 131-173) acting on the token
store.  `net` is the parsed 2xx response body or a transport/JSON failure
message.  On `success and verified`: a missing or empty `mcpToken` raises the
protocol error; otherwise the token is persisted via `_save_token_to_env`
(whose own failure propagates) and returned.  Otherwise the server message
(default `Email verification failed`) is raised.  The returned store is the
store after the call. -/
def verify_email (net : Except String VerifyResponse) (s : Store) :
    Except String String × Store :=
  match net with
  | .error e => (.error ("Verification request failed: " ++ e), s)
  | .ok data =>
    if data.success && data.verified then
      let t := data.mcpToken.getD ""
      if t = "" then (.error "No mcpToken returned from verification", s)
      else
        match _save_token_to_env t s with
        | .ok s1 => (.ok t, s1)
        | .error e => (.error e, s)
    else (.error (data.message.getD "Email verification failed"), s)

/-- The observable remote/interactive steps of one `authenticate_user`
attempt: the `register-user` post, the console prompt, the `verify-email`
post. -/
inductive AuthStep where
  | register
  | prompt
  | verify
deriving DecidableEq

/-- `_DryAIAuth.authenticate_user` (auth.py lines 175-203), which the
module-level `authenticate_user` (lines 242-249) delegates to.  Inputs are the
remote outcomes of the two posts and the raw console input; outputs are the
returned `Optional[str]`, the store after the attempt, and the trace of steps
actually performed.  Every raised `Exception` is caught at lines 201-203 and
turned into `None`; nothing is retried. -/
def authenticate_user (netReg : Except String RegResponse) (input : String)
    (netVer : Except String VerifyResponse) (s : Store) :
    Option String × Store × List AuthStep :=
  match register_or_login netReg with
  | .error _ => (none, s, [.register])
  | .ok data =>
    match data.userId with
    | none => (none, s, [.register])
    | some uid =>
      if uid = "" then (none, s, [.register])
      else
        let code := String.mk (pyStripL input.data)
        if code = "" then (none, s, [.register, .prompt])
        else
          match verify_email netVer s with
          | (.ok t, s1) => (some t, s1, [.register, .prompt, .verify])
          | (.error _, s1) => (none, s1, [.register, .prompt, .verify])

/-! ## Item attribute lookup (src/drydotai/client.py, DryAIItem.__getattr__) -/

/-- Python `str.capitalize()` restricted to ASCII case mapping: first
character upper-cased, the rest lower-cased. -/
def pyCapitalize (s : String) : String :=
  match s.data with
  | [] => ""
  | c :: rest => String.mk (c.toUpper :: rest.map Char.toLower)

/-- Python `str.upper()` restricted to ASCII case mapping. -/
def pyUpper (s : String) : String := String.mk (s.data.map Char.toUpper)

/-- Python `str.lower()` restricted to ASCII case mapping. -/
def pyLower (s : String) : String := String.mk (s.data.map Char.toLower)

/-- Exact-key lookup in the item's `_data` mapping (`name in self._data`
followed by `self._data[name]`); a dict's keys are unique, so first match. -/
def assocFind {V : Type} : List (String × V) → String → Option V
  | [], _ => none
  | (k, v) :: rest, n => if k = n then some v else assocFind rest n

/-- The final fallback of `DryAIItem.__getattr__` (client.py lines 62-65):
scan all keys for the first case-insensitive match. -/
def findCaseInsensitive {V : Type} : List (String × V) → String → Option V
  | [], _ => none
  | (k, v) :: rest, n => if pyLower k = pyLower n then some v else findCaseInsensitive rest n

/-- `DryAIItem.__getattr__` (client.py lines 41-68): try the exact key, then
the capitalized key, then the upper-cased key, then a case-insensitive scan;
return `None` when nothing matches. -/
def dryAIItem_getattr {V : Type} (data : List (String × V)) (name : String) : Option V :=
  match assocFind data name with
  | some v => some v
  | none =>
    match assocFind data (pyCapitalize name) with
    | some v => some v
    | none =>
      match assocFind data (pyUpper name) with
      | some v => some v
      | none => findCaseInsensitive data name

/-! ## Helper lemmas about the string primitives -/

/-- Two strings with the same character data are equal. -/
lemma stringDataExt {a b : String} (h : a.data = b.data) : a = b :=
  congrArg String.mk h

lemma dropWhile_cons_false {p : Char → Bool} {a : Char} {l : List Char}
    (h : p a = false) : (a :: l).dropWhile p = a :: l := by
  simp [List.dropWhile_cons, h]

lemma dropWhile_append_of_ne_nil {p : Char → Bool} :
    ∀ (xs ys : List Char), xs.dropWhile p ≠ [] →
      (xs ++ ys).dropWhile p = xs.dropWhile p ++ ys := by
  intro xs
  induction xs with
  | nil => intro ys h; simp [List.dropWhile] at h
  | cons a xs ih =>
    intro ys h
    cases hp : p a with
    | true => simp only [List.cons_append, List.dropWhile_cons, hp, if_true] at h ⊢
              exact ih ys h
    | false => simp [List.dropWhile_cons, hp]

lemma dropWhile_append_of_nil {p : Char → Bool} :
    ∀ (xs ys : List Char), xs.dropWhile p = [] →
      (xs ++ ys).dropWhile p = ys.dropWhile p := by
  intro xs
  induction xs with
  | nil => intro ys _; rfl
  | cons a xs ih =>
    intro ys h
    cases hp : p a with
    | true => simp only [List.cons_append, List.dropWhile_cons, hp, if_true] at h ⊢
              exact ih ys h
    | false => rw [dropWhile_cons_false hp] at h; exact absurd h (by simp)

lemma listStartsWith_append_self : ∀ (xs ys : List Char), listStartsWith (xs ++ ys) xs = true := by
  intro xs
  induction xs with
  | nil => intro ys; cases ys <;> rfl
  | cons c cs ih => intro ys; simp [listStartsWith, ih ys]

lemma afterFirstEq_append {xs : List Char} (ys : List Char) (h : '=' ∉ xs) :
    afterFirstEq (xs ++ '=' :: ys) = ys := by
  induction xs with
  | nil => simp [afterFirstEq]
  | cons c cs ih =>
    have hc : ¬(c = '=') := fun e => h (e ▸ List.mem_cons_self c cs)
    simp only [List.cons_append, afterFirstEq, hc, if_false]
    exact ih (fun hm => h (List.mem_cons_of_mem _ hm))

/-- Is the head of the list present and not whitespace? -/
def headNonSpaceL (l : List Char) : Bool :=
  match l with
  | [] => false
  | c :: _ => !isPySpace c

/-- Is the last character (when there is one) not whitespace? -/
def lastNonSpaceL (l : List Char) : Bool :=
  match l.getLast? with
  | none => true
  | some c => !isPySpace c

lemma rstripOnly_append_nl {t : List Char} (h : lastNonSpaceL t = true) :
    rstripOnly (t ++ ['\n']) = t := by
  unfold rstripOnly
  rw [List.reverse_append]
  simp only [List.reverse_cons, List.reverse_nil, List.nil_append, List.singleton_append]
  rw [show ('\n' :: t.reverse).dropWhile isPySpace = t.reverse.dropWhile isPySpace from by
    simp [List.dropWhile_cons, isPySpace]]
  rcases t.eq_nil_or_concat' with rfl | ⟨L, b, rfl⟩
  · rfl
  · have hb : isPySpace b = false := by
      unfold lastNonSpaceL at h
      rw [List.getLast?_concat] at h
      simpa using h
    rw [List.reverse_append, List.reverse_singleton, List.singleton_append,
        dropWhile_cons_false hb]
    simp

lemma rstripOnly_append_nl_all : ∀ (l : List Char), rstripOnly (l ++ ['\n']) = rstripOnly l := by
  intro l
  unfold rstripOnly
  rw [List.reverse_append, List.reverse_singleton, List.singleton_append]
  rw [show ('\n' :: l.reverse).dropWhile isPySpace = l.reverse.dropWhile isPySpace from by
    simp [List.dropWhile_cons, isPySpace]]

lemma rstripOnly_append_of_last {pat : List Char} (hne : pat ≠ []) (h2 : lastNonSpaceL pat = true) :
    ∀ rest, rstripOnly (pat ++ rest) = pat ++ rstripOnly rest := by
  rcases pat.eq_nil_or_concat' with rfl | ⟨L, b, rfl⟩
  · exact absurd rfl hne
  · have hb : isPySpace b = false := by
      unfold lastNonSpaceL at h2
      rw [List.getLast?_concat] at h2
      simpa using h2
    intro rest
    unfold rstripOnly
    rw [List.reverse_append]
    cases hd : rest.reverse.dropWhile isPySpace with
    | nil =>
      rw [dropWhile_append_of_nil _ _ hd]
      rw [List.reverse_append, List.reverse_singleton, List.singleton_append,
          dropWhile_cons_false hb]
      simp [hd]
    | cons x xs =>
      have hne2 : rest.reverse.dropWhile isPySpace ≠ [] := by rw [hd]; simp
      rw [dropWhile_append_of_ne_nil rest.reverse ((L ++ [b]).reverse) hne2, hd]
      simp [List.reverse_append]

lemma pyStripL_pat {pat : List Char} (h1 : headNonSpaceL pat = true) (h2 : lastNonSpaceL pat = true) :
    ∀ rest, pyStripL (pat ++ rest) = pat ++ rstripOnly rest := by
  match pat, h1 with
  | c :: cs, h1 =>
    have hc : isPySpace c = false := by simpa [headNonSpaceL] using h1
    intro rest
    unfold pyStripL
    rw [List.cons_append, dropWhile_cons_false hc, ← List.cons_append]
    exact rstripOnly_append_of_last (by simp) h2 rest

lemma pyStripL_append_nl : ∀ (xs : List Char), pyStripL (xs ++ ['\n']) = pyStripL xs := by
  intro xs
  unfold pyStripL
  cases hd : xs.dropWhile isPySpace with
  | nil =>
    rw [dropWhile_append_of_nil xs ['\n'] hd]
    simp [List.dropWhile, isPySpace]
  | cons x xsl =>
    have hne2 : xs.dropWhile isPySpace ≠ [] := by rw [hd]; simp
    rw [dropWhile_append_of_ne_nil xs ['\n'] hne2, hd]
    exact rstripOnly_append_nl_all _

/-! ## Lemmas about readlines, joinLines and line shapes -/

/-- A line as produced by `readlines`: nonempty, with `'\n'` occurring at most
as its final character. -/
def lineWF (l : String) : Prop := l ≠ "" ∧ '\n' ∉ l.data.dropLast

lemma readlinesAux_nl_split : ∀ (m : List Char), '\n' ∉ m → ∀ (rest acc : List Char),
    readlinesAux (m ++ '\n' :: rest) acc
      = String.mk (acc.reverse ++ m ++ ['\n']) :: readlinesAux rest [] := by
  intro m
  induction m with
  | nil => intro _ rest acc; simp [readlinesAux]
  | cons c cs ih =>
    intro h rest acc
    have hc : ¬(c = '\n') := fun e => h (e ▸ List.mem_cons_self c cs)
    simp only [List.cons_append, readlinesAux, hc, if_false]
    show readlinesAux (cs ++ '\n' :: rest) (c :: acc) = _
    rw [ih (fun hm => h (List.mem_cons_of_mem _ hm)) rest (c :: acc)]
    congr 2
    simp

lemma readlinesAux_no_nl : ∀ (m : List Char), '\n' ∉ m → ∀ (acc : List Char),
    readlinesAux m acc
      = if acc = [] ∧ m = [] then [] else [String.mk (acc.reverse ++ m)] := by
  intro m
  induction m with
  | nil =>
    intro _ acc
    rcases eq_or_ne acc [] with rfl | ha
    · simp [readlinesAux]
    · simp [readlinesAux, ha]
  | cons c cs ih =>
    intro h acc
    have hc : ¬(c = '\n') := fun e => h (e ▸ List.mem_cons_self c cs)
    simp only [readlinesAux, hc, if_false]
    rw [ih (fun hm => h (List.mem_cons_of_mem _ hm)) (c :: acc)]
    simp

lemma mem_readlinesAux_wf : ∀ (cs acc : List Char), '\n' ∉ acc →
    ∀ l ∈ readlinesAux cs acc, lineWF l := by
  intro cs
  induction cs with
  | nil =>
    intro acc hacc l hl
    rcases eq_or_ne acc [] with rfl | ha
    · simp [readlinesAux] at hl
    · simp only [readlinesAux, ha, if_false, List.mem_singleton] at hl
      subst hl
      refine ⟨fun e => ha ?_, fun hm => hacc (List.mem_reverse.mp (List.dropLast_subset _ hm))⟩
      simpa using congrArg String.data e
  | cons c cs ih =>
    intro acc hacc l hl
    by_cases hc : c = '\n'
    · subst hc
      simp only [readlinesAux, if_true, List.mem_cons] at hl
      rcases hl with rfl | hl
      · refine ⟨fun e => ?_, ?_⟩
        · have := congrArg String.data e
          simp at this
        · rw [show (String.mk (acc.reverse ++ ['\n'])).data = acc.reverse ++ ['\n'] from rfl,
              List.dropLast_concat]
          exact fun hm => hacc (List.mem_reverse.mp hm)
      · exact ih [] (by simp) l hl
    · simp only [readlinesAux, hc, if_false] at hl
      refine ih (c :: acc) ?_ l hl
      intro hm
      rcases List.mem_cons.mp hm with h1 | h1
      · exact hc h1.symm
      · exact hacc h1

lemma readlinesAux_dropLast_endsNl : ∀ (cs acc : List Char),
    ∀ l ∈ (readlinesAux cs acc).dropLast, endsWithNl l = true := by
  intro cs
  induction cs with
  | nil =>
    intro acc l hl
    rcases eq_or_ne acc [] with rfl | ha
    · simp [readlinesAux] at hl
    · simp [readlinesAux, ha] at hl
  | cons c cs ih =>
    intro acc l hl
    by_cases hc : c = '\n'
    · subst hc
      simp only [readlinesAux, if_true] at hl
      cases hrest : readlinesAux cs [] with
      | nil => rw [hrest] at hl; simp at hl
      | cons y ys =>
        rw [hrest, List.dropLast_cons₂] at hl
        rcases List.mem_cons.mp hl with rfl | h
        · simp [endsWithNl, List.getLast?_concat]
        · exact ih [] l (by rw [hrest]; exact h)
    · simp only [readlinesAux, hc, if_false] at hl
      exact ih (c :: acc) l hl

lemma readlines_wf : ∀ l ∈ readlines c, lineWF l :=
  mem_readlinesAux_wf c.data [] (by simp)

lemma readlines_dropLast_endsNl : ∀ l ∈ (readlines c).dropLast, endsWithNl l = true :=
  readlinesAux_dropLast_endsNl c.data []

lemma data_concat_of_endsWithNl {l : String} (hwf : lineWF l) (he : endsWithNl l = true) :
    ∃ m, '\n' ∉ m ∧ l.data = m ++ ['\n'] := by
  rcases l.data.eq_nil_or_concat' with h | ⟨L, b, h⟩
  · exact absurd (stringDataExt h) hwf.1
  · have hb : b = '\n' := by
      have := he
      unfold endsWithNl at this
      rw [h, List.getLast?_concat] at this
      simpa using this
    subst hb
    refine ⟨L, ?_, h⟩
    have := hwf.2
    rw [h, List.dropLast_concat] at this
    exact this

lemma no_nl_of_not_endsWithNl {l : String} (hwf : lineWF l) (he : endsWithNl l = false) :
    '\n' ∉ l.data := by
  rcases l.data.eq_nil_or_concat' with h | ⟨L, b, h⟩
  · rw [h]; simp
  · have hb : ¬(b = '\n') := by
      intro e
      subst e
      unfold endsWithNl at he
      rw [h, List.getLast?_concat] at he
      simp at he
    have hL : '\n' ∉ L := by
      have := hwf.2
      rw [h, List.dropLast_concat] at this
      exact this
    rw [h]
    intro hm
    rcases List.mem_append.mp hm with h1 | h1
    · exact hL h1
    · exact hb (List.mem_singleton.mp h1).symm

lemma joinLines_cons (l : String) (rest : List String) :
    joinLines (l :: rest) = l ++ joinLines rest := rfl

lemma readlines_joinLines : ∀ (lines : List String),
    (∀ l ∈ lines, lineWF l) → (∀ l ∈ lines.dropLast, endsWithNl l = true) →
    readlines (joinLines lines) = lines := by
  intro lines
  induction lines with
  | nil => intro _ _; rfl
  | cons l rest ih =>
    intro h1 h2
    have hwf : lineWF l := h1 l (List.mem_cons_self l rest)
    cases rest with
    | nil =>
      have hdata : (joinLines [l]).data = l.data := by
        rw [joinLines_cons]
        show (l ++ "").data = l.data
        rw [String.data_append]
        simp [show ("" : String).data = [] from rfl]
      show readlinesAux (joinLines [l]).data [] = [l]
      rw [hdata]
      cases he : endsWithNl l with
      | true =>
        obtain ⟨m, hm, hl⟩ := data_concat_of_endsWithNl hwf he
        rw [hl, show (m ++ ['\n'] : List Char) = m ++ '\n' :: [] from rfl,
            readlinesAux_nl_split m hm [] []]
        simp only [readlinesAux, List.reverse_nil, List.nil_append]
        rw [show String.mk (m ++ ['\n']) = l from stringDataExt hl.symm]
        simp
      | false =>
        have hnn : '\n' ∉ l.data := no_nl_of_not_endsWithNl hwf he
        rw [readlinesAux_no_nl l.data hnn []]
        have hld : l.data ≠ [] := fun h => hwf.1 (stringDataExt h)
        rw [if_neg (by simp [hld] : ¬(([] : List Char) = [] ∧ l.data = []))]
        simp only [List.reverse_nil, List.nil_append]
    | cons r rs =>
      have hel : endsWithNl l = true :=
        h2 l (by rw [List.dropLast_cons₂]; exact List.mem_cons_self _ _)
      obtain ⟨m, hm, hl⟩ := data_concat_of_endsWithNl hwf hel
      have hjoin : (joinLines (l :: r :: rs)).data = m ++ '\n' :: (joinLines (r :: rs)).data := by
        rw [joinLines_cons, String.data_append, hl]
        simp
      show readlinesAux (joinLines (l :: r :: rs)).data [] = l :: r :: rs
      rw [hjoin, readlinesAux_nl_split m hm _ []]
      rw [show readlinesAux (joinLines (r :: rs)).data [] = readlines (joinLines (r :: rs)) from rfl]
      rw [ih (fun x hx => h1 x (List.mem_cons_of_mem _ hx))
            (fun x hx => h2 x (by rw [List.dropLast_cons₂]; exact List.mem_cons_of_mem _ hx))]
      simp only [List.reverse_nil, List.nil_append]
      rw [show String.mk (m ++ ['\n']) = l from stringDataExt hl.symm]

/-! ## Lemmas about the token-line operations -/

lemma str_nl_data : ("\n" : String).data = ['\n'] := rfl

lemma tokLine_data (t : String) : (tokLine t).data = tokPat ++ t.data ++ ['\n'] := by
  simp [tokLine, tokPat, String.data_append, str_nl_data, List.append_assoc]

lemma pyStripL_tokLine {t : String} (h : lastNonSpaceL t.data = true) :
    pyStripL (tokLine t).data = tokPat ++ t.data := by
  rw [tokLine_data, List.append_assoc,
      pyStripL_pat (by decide) (by decide) (t.data ++ ['\n']),
      rstripOnly_append_nl h]

lemma scanLines_tokLine {t : String} (h : lastNonSpaceL t.data = true) (rest : List String) :
    scanLines (tokLine t :: rest) = some t := by
  simp only [scanLines]
  rw [pyStripL_tokLine h, listStartsWith_append_self, if_pos rfl]
  have hsplit : tokPat ++ t.data = ("DRY_AI_TOKEN" : String).data ++ '=' :: t.data := by
    rw [show tokPat = ("DRY_AI_TOKEN" : String).data ++ ['='] from by decide]
    simp
  rw [hsplit, afterFirstEq_append t.data (by decide)]

lemma scanLines_cons_of_not {l : String}
    (h : listStartsWith (pyStripL l.data) tokPat = false) (rest : List String) :
    scanLines (l :: rest) = scanLines rest := by
  simp [scanLines, h]

lemma not_readMatch_of_not_isTokenLine {l : String} (h : isTokenLine l = false) :
    listStartsWith (pyStripL l.data) tokPat = false := by
  unfold isTokenLine at h
  exact (Bool.or_eq_false_iff.mp h).1

lemma ensureNl_of_endsNl {l : String} (he : endsWithNl l = true) : ensureNl l = l := by
  have hne : l ≠ "" := by
    intro e
    subst e
    simp [endsWithNl] at he
  simp [ensureNl, hne, he]

lemma ensureNl_data_concat {l : String} (hwf : lineWF l) :
    ∃ m, '\n' ∉ m ∧ (ensureNl l).data = m ++ ['\n'] := by
  cases he : endsWithNl l with
  | true => rw [ensureNl_of_endsNl he]; exact data_concat_of_endsWithNl hwf he
  | false =>
    have : ensureNl l = l ++ "\n" := by simp [ensureNl, hwf.1, he]
    rw [this, String.data_append, str_nl_data]
    exact ⟨l.data, no_nl_of_not_endsWithNl hwf he, rfl⟩

lemma pyStripL_ensureNl (l : String) : pyStripL (ensureNl l).data = pyStripL l.data := by
  rcases eq_or_ne l "" with rfl | hne
  · rfl
  · cases he : endsWithNl l with
    | true => rw [ensureNl_of_endsNl he]
    | false =>
      rw [show ensureNl l = l ++ "\n" from by simp [ensureNl, hne, he],
          String.data_append, str_nl_data, pyStripL_append_nl]

lemma isTokenLine_ensureNl (l : String) : isTokenLine (ensureNl l) = isTokenLine l := by
  unfold isTokenLine
  rw [pyStripL_ensureNl]

lemma isTokenLine_tokLine (t : String) : isTokenLine (tokLine t) = true := by
  unfold isTokenLine
  rw [tokLine_data, List.append_assoc, pyStripL_pat (by decide) (by decide) (t.data ++ ['\n']),
      listStartsWith_append_self]
  rfl

lemma lineWF_of_concat {l : String} (h : ∃ m, '\n' ∉ m ∧ l.data = m ++ ['\n']) : lineWF l := by
  obtain ⟨m, hm, hl⟩ := h
  constructor
  · intro e
    subst e
    simp at hl
  · rw [hl, List.dropLast_concat]
    exact hm

lemma endsWithNl_of_concat {l : String} (h : ∃ m, '\n' ∉ m ∧ l.data = m ++ ['\n']) :
    endsWithNl l = true := by
  obtain ⟨m, -, hl⟩ := h
  simp [endsWithNl, hl, List.getLast?_concat]

/-! ## Lemmas about the save rewrite loop -/

lemma rewriteLines_eq_of_none {token : String} : ∀ {lines : List String},
    (∀ l ∈ lines, isTokenLine l = false) →
    rewriteLines token lines = (lines.map ensureNl, false) := by
  intro lines
  induction lines with
  | nil => intro _; rfl
  | cons l rest ih =>
    intro h
    have hl : isTokenLine l = false := h l (List.mem_cons_self l rest)
    simp [rewriteLines, hl, ih (fun x hx => h x (List.mem_cons_of_mem _ hx))]

lemma rewriteLines_append (token : String) : ∀ (xs ys : List String),
    rewriteLines token (xs ++ ys)
      = ((rewriteLines token xs).1 ++ (rewriteLines token ys).1,
         (rewriteLines token xs).2 || (rewriteLines token ys).2) := by
  intro xs
  induction xs with
  | nil => intro ys; simp [rewriteLines]
  | cons l xs ih =>
    intro ys
    cases hl : isTokenLine l with
    | true => simp [rewriteLines, hl, ih]
    | false => simp [rewriteLines, hl, ih]

lemma updatedLines_split {token : String} {pre post : List String} {tl : String}
    (htl : isTokenLine tl = true)
    (hpre : ∀ l ∈ pre, isTokenLine l = false) (hpost : ∀ l ∈ post, isTokenLine l = false) :
    updatedLines token (pre ++ tl :: post)
      = pre.map ensureNl ++ tokLine token :: post.map ensureNl := by
  unfold updatedLines
  rw [rewriteLines_append, rewriteLines_eq_of_none hpre]
  have h2 : rewriteLines token (tl :: post) = (tokLine token :: post.map ensureNl, true) := by
    simp [rewriteLines, htl, rewriteLines_eq_of_none hpost]
  rw [h2]
  simp

lemma rewriteLines_fst_wf {token : String} (hnl : '\n' ∉ token.data) :
    ∀ (lines : List String), (∀ l ∈ lines, lineWF l) →
      ∀ l ∈ (rewriteLines token lines).1, ∃ m, '\n' ∉ m ∧ l.data = m ++ ['\n'] := by
  have htok : ∃ m, '\n' ∉ m ∧ (tokLine token).data = m ++ ['\n'] := by
    refine ⟨tokPat ++ token.data, ?_, by rw [tokLine_data]⟩
    intro hm
    rcases List.mem_append.mp hm with h1 | h1
    · exact absurd h1 (by decide)
    · exact hnl h1
  intro lines
  induction lines with
  | nil => intro _ l hl; simp [rewriteLines] at hl
  | cons x rest ih =>
    intro h l hl
    cases hx : isTokenLine x with
    | true =>
      have hstep : (rewriteLines token (x :: rest)).1 = tokLine token :: (rewriteLines token rest).1 := by
        simp [rewriteLines, hx]
      rw [hstep] at hl
      rcases List.mem_cons.mp hl with rfl | hl
      · exact htok
      · exact ih (fun y hy => h y (List.mem_cons_of_mem _ hy)) l hl
    | false =>
      have hstep : (rewriteLines token (x :: rest)).1 = ensureNl x :: (rewriteLines token rest).1 := by
        simp [rewriteLines, hx]
      rw [hstep] at hl
      rcases List.mem_cons.mp hl with rfl | hl
      · exact ensureNl_data_concat (h x (List.mem_cons_self x rest))
      · exact ih (fun y hy => h y (List.mem_cons_of_mem _ hy)) l hl

lemma updatedLines_wf {token : String} {lines : List String}
    (hnl : '\n' ∉ token.data) (h : ∀ l ∈ lines, lineWF l) :
    ∀ l ∈ updatedLines token lines, ∃ m, '\n' ∉ m ∧ l.data = m ++ ['\n'] := by
  have htok : ∃ m, '\n' ∉ m ∧ (tokLine token).data = m ++ ['\n'] := by
    refine ⟨tokPat ++ token.data, ?_, by rw [tokLine_data]⟩
    intro hm
    rcases List.mem_append.mp hm with h1 | h1
    · exact absurd h1 (by decide)
    · exact hnl h1
  intro l hl
  rw [show updatedLines token lines
        = (if (rewriteLines token lines).2
           then (rewriteLines token lines).1
           else (rewriteLines token lines).1 ++ [tokLine token]) from rfl] at hl
  split at hl
  · exact rewriteLines_fst_wf hnl lines h l hl
  · rcases List.mem_append.mp hl with h1 | h1
    · exact rewriteLines_fst_wf hnl lines h l h1
    · rw [List.mem_singleton.mp h1]
      exact htok

lemma scanLines_updatedLines {token : String} (hts : lastNonSpaceL token.data = true) :
    ∀ (lines : List String), scanLines (updatedLines token lines) = some token := by
  intro lines
  induction lines with
  | nil =>
    rw [show updatedLines token [] = [tokLine token] from rfl]
    exact scanLines_tokLine hts []
  | cons l rest ih =>
    cases hl : isTokenLine l with
    | true =>
      have hstep : updatedLines token (l :: rest) = tokLine token :: (rewriteLines token rest).1 := by
        simp [updatedLines, rewriteLines, hl]
      rw [hstep]
      exact scanLines_tokLine hts _
    | false =>
      have hstep : updatedLines token (l :: rest) = ensureNl l :: updatedLines token rest := by
        simp only [updatedLines, rewriteLines, hl, if_false]
        cases hr : (rewriteLines token rest).2 <;> simp [hr]
      rw [hstep,
          scanLines_cons_of_not
            (by rw [pyStripL_ensureNl]; exact not_readMatch_of_not_isTokenLine hl) _]
      exact ih

/-! ## Lemmas about the store operations -/

lemma envLines_wf (s : Store) : ∀ l ∈ envLines s, lineWF l := by
  intro l hl
  unfold envLines at hl
  split at hl
  · simp at hl
  · split at hl
    · exact readlines_wf l hl
    · simp at hl

lemma save_token_ok {token : String} {s : Store} (hio : s.ioOk = true) :
    _save_token_to_env token s
      = .ok { env := some token, file := some (joinLines (updatedLines token (envLines s))),
              current := some token, ioOk := true } := by
  simp [_save_token_to_env, hio]

lemma readlines_saved_file {token : String} {lines : List String}
    (hnl : '\n' ∉ token.data) (h : ∀ l ∈ lines, lineWF l) :
    readlines (joinLines (updatedLines token lines)) = updatedLines token lines := by
  have hwf := updatedLines_wf hnl h
  refine readlines_joinLines _ (fun l hl => lineWF_of_concat (hwf l hl)) ?_
  intro l hl
  exact endsWithNl_of_concat (hwf l (List.dropLast_subset _ hl))

/-! ## Claim C1 -/

/-- C1: `drydotai/__init__.py` requests `Smartspace`, `create_smartspace`,
`get_smartspace` and `get_smartspace_by_id` from `drydotai.client`, but that
module defines only `Space`, `create_space`, `get_space` and
`get_space_by_id`; executing the package initializer therefore raises an
`ImportError` at its very first statement (on `Smartspace`), so no public
function of the library is reachable through the package. -/
theorem packageInit_fails :
    packageInit = .error "ImportError: cannot import name Smartspace"
    ∧ "Smartspace" ∈ initImportNames ∧ "Smartspace" ∉ clientModuleNames :=
  ⟨rfl, by decide, by decide⟩

/-! ## Claim C2 -/

/-- C2, counterexample to the claim as stated: for the token `"a "` (with a
trailing space), `set` followed by `get` with the environment entry absent
returns `"a"`, not `"a "`: the file write stores `DRY_AI_TOKEN=a \n` but the
read side calls `line.strip()` before splitting, so the token's trailing
whitespace is lost on the file path. -/
theorem tokenStore_roundtrip_cex :
    _save_token_to_env "a " { env := none, file := none, current := none, ioOk := true }
      = .ok { env := some "a ", file := some "DRY_AI_TOKEN=a \n",
              current := some "a ", ioOk := true }
    ∧ get_stored_token { env := none, file := some "DRY_AI_TOKEN=a \n",
                         current := some "a ", ioOk := true } = some "a"
    ∧ some "a" ≠ some "a " :=
  ⟨rfl, by decide, by decide⟩

/-- C2 (amended): for every token that contains no newline and does not end
in whitespace, and every starting store whose file I/O succeeds, `set(token)`
followed by `get()` returns exactly `token`, both when `get` reads the
process environment entry and when the environment entry is absent and `get`
reads the token back from the file. -/
theorem tokenStore_roundtrip (token : String) (s : Store)
    (hio : s.ioOk = true) (hnl : '\n' ∉ token.data)
    (hts : lastNonSpaceL token.data = true) :
    ∃ s1, _save_token_to_env token s = .ok s1 ∧
      get_stored_token s1 = some token ∧
      get_stored_token { s1 with env := none } = some token := by
  have hscan : scanLines (readlines (joinLines (updatedLines token (envLines s)))) = some token := by
    rw [readlines_saved_file hnl (envLines_wf s)]
    exact scanLines_updatedLines hts _
  refine ⟨_, save_token_ok hio, ?_, ?_⟩
  · rcases eq_or_ne token "" with rfl | hne
    · simpa [get_stored_token, fileTokenLookup] using hscan
    · simp [get_stored_token, hne]
  · simpa [get_stored_token, fileTokenLookup] using hscan

/-- Witness for the amended C2 at a concrete token and empty store. -/
theorem tokenStore_roundtrip_witness :
    ∃ s1, _save_token_to_env "tok" { env := none, file := none, current := none, ioOk := true }
        = .ok s1 ∧
      get_stored_token s1 = some "tok" ∧
      get_stored_token { s1 with env := none } = some "tok" :=
  tokenStore_roundtrip "tok" { env := none, file := none, current := none, ioOk := true }
    rfl (by decide) (by decide)

/-! ## Claim C3 -/

/-- C3: when the server's `verify-email` response is a 2xx body with
`success = false` and `message = "bad code"`, `verify_email` writes nothing to
the token store (the store — file, environment entry and in-memory current
token — is returned unchanged) and raises a failure whose message is exactly
`"bad code"` (which in particular contains `"bad code"`). -/
theorem verify_email_bad_code (d : VerifyResponse) (s : Store)
    (h1 : d.success = false) (h2 : d.message = some "bad code") :
    verify_email (.ok d) s = (.error "bad code", s) := by
  simp [verify_email, h1, h2]

/-- Witness for C3 at a concrete response and store. -/
theorem verify_email_bad_code_witness :
    verify_email (.ok ⟨false, false, none, some "bad code", false⟩)
        { env := none, file := none, current := none, ioOk := true }
      = (.error "bad code", { env := none, file := none, current := none, ioOk := true }) :=
  verify_email_bad_code ⟨false, false, none, some "bad code", false⟩
    { env := none, file := none, current := none, ioOk := true } rfl rfl

/-! ## Claim C4 -/

/-- C4: whenever the process environment entry holds a (nonempty) token and
the file scan yields a different token, `get_stored_token` returns the
environment variable's value, never the file's. -/
theorem get_env_precedence (s : Store) (t1 t2 : String)
    (h1 : s.env = some t1) (h2 : t1 ≠ "")
    (h3 : fileTokenLookup s = some t2) (h4 : t1 ≠ t2) :
    get_stored_token s = some t1 := by
  simp [get_stored_token, h1, h2]

/-- Witness for C4: environment holds `envtok`, file holds `filetok`. -/
theorem get_env_precedence_witness :
    get_stored_token { env := some "envtok", file := some "DRY_AI_TOKEN=filetok\n",
                       current := none, ioOk := true } = some "envtok" :=
  get_env_precedence
    { env := some "envtok", file := some "DRY_AI_TOKEN=filetok\n", current := none, ioOk := true }
    "envtok" "filetok" rfl (by decide) (by decide) (by decide)

/-! ## Claim C5 -/

/-- C5, counterexample to the claim as stated: for a file whose final
unrelated line `OTHER_KEY=value` lacks a trailing newline, `set("new")`
rewrites it to `OTHER_KEY=value\n` — the token line is replaced correctly,
but the unrelated final line is not preserved byte for byte: the rewrite loop
appends a newline to any kept line that lacks one. -/
theorem save_preserves_unrelated_cex :
    _save_token_to_env "new"
        { env := none, file := some "DRY_AI_TOKEN=old\nOTHER_KEY=value",
          current := none, ioOk := true }
      = .ok { env := some "new", file := some "DRY_AI_TOKEN=new\nOTHER_KEY=value\n",
              current := some "new", ioOk := true }
    ∧ readlines "DRY_AI_TOKEN=old\nOTHER_KEY=value" = ["DRY_AI_TOKEN=old\n", "OTHER_KEY=value"]
    ∧ readlines "DRY_AI_TOKEN=new\nOTHER_KEY=value\n"
        = ["DRY_AI_TOKEN=new\n", "OTHER_KEY=value\n"]
    ∧ ("OTHER_KEY=value\n" : String) ≠ "OTHER_KEY=value" :=
  ⟨rfl, by decide, by decide, by decide⟩

/-- C5 (amended): for a file holding unrelated lines plus exactly one token
line, `set(new_token)` replaces only the token line and keeps every unrelated
line; an unrelated line that ended with a newline is preserved verbatim, and
a (necessarily final) unrelated line lacking the trailing newline is
preserved up to that one appended newline. -/
theorem save_preserves_unrelated (token : String) (s : Store) (c tl : String)
    (pre post : List String)
    (hio : s.ioOk = true) (hf : s.file = some c)
    (hsplit : readlines c = pre ++ tl :: post)
    (htl : isTokenLine tl = true)
    (hpre : ∀ l ∈ pre, isTokenLine l = false)
    (hpost : ∀ l ∈ post, isTokenLine l = false)
    (hnl : '\n' ∉ token.data) :
    ∃ s1, _save_token_to_env token s = .ok s1 ∧
      s1.file = some (joinLines (pre.map ensureNl ++ tokLine token :: post.map ensureNl)) ∧
      readlines (joinLines (pre.map ensureNl ++ tokLine token :: post.map ensureNl))
        = pre.map ensureNl ++ tokLine token :: post.map ensureNl ∧
      (∀ l ∈ pre ++ post, endsWithNl l = true → ensureNl l = l) := by
  have henv : envLines s = pre ++ tl :: post := by
    simp [envLines, hf, hio, hsplit]
  have hupd : updatedLines token (envLines s)
      = pre.map ensureNl ++ tokLine token :: post.map ensureNl := by
    rw [henv]
    exact updatedLines_split htl hpre hpost
  refine ⟨_, save_token_ok hio, ?_, ?_, ?_⟩
  · show some (joinLines (updatedLines token (envLines s))) = _
    rw [hupd]
  · rw [← hupd]
    exact readlines_saved_file hnl (envLines_wf s)
  · intro l _ he
    exact ensureNl_of_endsNl he

/-- Witness for the amended C5: one unrelated line followed by the token line. -/
theorem save_preserves_unrelated_witness :
    ∃ s1, _save_token_to_env "new"
        { env := none, file := some "OTHER_KEY=value\nDRY_AI_TOKEN=old\n",
          current := none, ioOk := true } = .ok s1 ∧
      s1.file = some (joinLines (List.map ensureNl ["OTHER_KEY=value\n"]
                        ++ tokLine "new" :: List.map ensureNl [])) ∧
      readlines (joinLines (List.map ensureNl ["OTHER_KEY=value\n"]
                   ++ tokLine "new" :: List.map ensureNl []))
        = List.map ensureNl ["OTHER_KEY=value\n"] ++ tokLine "new" :: List.map ensureNl [] ∧
      (∀ l ∈ ["OTHER_KEY=value\n"] ++ ([] : List String), endsWithNl l = true → ensureNl l = l) :=
  save_preserves_unrelated "new"
    { env := none, file := some "OTHER_KEY=value\nDRY_AI_TOKEN=old\n",
      current := none, ioOk := true }
    "OTHER_KEY=value\nDRY_AI_TOKEN=old\n" "DRY_AI_TOKEN=old\n" ["OTHER_KEY=value\n"] []
    rfl rfl (by decide) (by decide) (by decide) (by decide) (by decide)

/-! ## Claim C6 -/

/-- C6: for a file holding a commented-out token line `# DRY_AI_TOKEN=old`
(and no other active or commented token line), `set(new)` turns exactly that
line into the active `DRY_AI_TOKEN=new` line: the rewritten file has the
fresh assignment at the commented line's position and contains exactly one
(active or commented) token line — nothing is appended. -/
theorem save_commented_becomes_active (token old : String) (s : Store) (c : String)
    (pre post : List String)
    (hio : s.ioOk = true) (hf : s.file = some c)
    (hsplit : readlines c = pre ++ ("# DRY_AI_TOKEN=" ++ old ++ "\n") :: post)
    (hpre : ∀ l ∈ pre, isTokenLine l = false)
    (hpost : ∀ l ∈ post, isTokenLine l = false)
    (hnl : '\n' ∉ token.data) :
    ∃ s1, _save_token_to_env token s = .ok s1 ∧
      ∃ c1, s1.file = some c1 ∧
        readlines c1 = pre.map ensureNl ++ tokLine token :: post.map ensureNl ∧
        (readlines c1).countP isTokenLine = 1 := by
  have htl : isTokenLine ("# DRY_AI_TOKEN=" ++ old ++ "\n") = true := by
    unfold isTokenLine
    have hd : ("# DRY_AI_TOKEN=" ++ old ++ "\n").data = comPat ++ (old.data ++ ['\n']) := by
      rw [String.data_append, String.data_append, str_nl_data,
          show ("# DRY_AI_TOKEN=" : String).data = comPat from by decide]
      simp [List.append_assoc]
    rw [hd, pyStripL_pat (by decide) (by decide) (old.data ++ ['\n']),
        listStartsWith_append_self]
    simp
  have henv : envLines s = pre ++ ("# DRY_AI_TOKEN=" ++ old ++ "\n") :: post := by
    simp [envLines, hf, hio, hsplit]
  have hupd : updatedLines token (envLines s)
      = pre.map ensureNl ++ tokLine token :: post.map ensureNl := by
    rw [henv]
    exact updatedLines_split htl hpre hpost
  have hre : readlines (joinLines (pre.map ensureNl ++ tokLine token :: post.map ensureNl))
      = pre.map ensureNl ++ tokLine token :: post.map ensureNl := by
    rw [← hupd]
    exact readlines_saved_file hnl (envLines_wf s)
  refine ⟨_, save_token_ok hio, joinLines (pre.map ensureNl ++ tokLine token :: post.map ensureNl),
          ?_, hre, ?_⟩
  · show some (joinLines (updatedLines token (envLines s))) = _
    rw [hupd]
  · rw [hre, List.countP_append, List.countP_cons]
    have h0 : ∀ (xs : List String), (∀ l ∈ xs, isTokenLine l = false) →
        (xs.map ensureNl).countP isTokenLine = 0 := by
      intro xs hxs
      rw [List.countP_eq_zero]
      intro a ha
      rcases List.mem_map.mp ha with ⟨x, hx, rfl⟩
      rw [isTokenLine_ensureNl]
      simp [hxs x hx]
    rw [h0 pre hpre, h0 post hpost, isTokenLine_tokLine]
    rfl

/-- Witness for C6: a file consisting of exactly the commented line. -/
theorem save_commented_becomes_active_witness :
    ∃ s1, _save_token_to_env "new"
        { env := none, file := some "# DRY_AI_TOKEN=old\n", current := none, ioOk := true }
      = .ok s1 ∧
      ∃ c1, s1.file = some c1 ∧
        readlines c1 = List.map ensureNl [] ++ tokLine "new" :: List.map ensureNl [] ∧
        (readlines c1).countP isTokenLine = 1 :=
  save_commented_becomes_active "new" "old"
    { env := none, file := some "# DRY_AI_TOKEN=old\n", current := none, ioOk := true }
    "# DRY_AI_TOKEN=old\n" [] []
    rfl rfl (by decide) (by decide) (by decide) (by decide)

/-! ## Claim C7 -/

lemma filter_idem (p : String → Bool) : ∀ (l : List String),
    (l.filter p).filter p = l.filter p := by
  intro l
  induction l with
  | nil => rfl
  | cons x xs ih => cases hp : p x <;> simp [List.filter_cons, hp, ih]

lemma filter_dropLast_endsNl (p : String → Bool) : ∀ (lines : List String),
    (∀ l ∈ lines.dropLast, endsWithNl l = true) →
    ∀ l ∈ (lines.filter p).dropLast, endsWithNl l = true := by
  intro lines
  induction lines with
  | nil => intro _ l hl; simp at hl
  | cons x xs ih =>
    intro h2 l hl
    have hx2 : ∀ y ∈ xs.dropLast, endsWithNl y = true := by
      intro y hy
      cases xs with
      | nil => simp at hy
      | cons a as => exact h2 y (by rw [List.dropLast_cons₂]; exact List.mem_cons_of_mem _ hy)
    cases hp : p x with
    | false =>
      rw [List.filter_cons, if_neg (by simp [hp])] at hl
      exact ih hx2 l hl
    | true =>
      rw [List.filter_cons, if_pos (by simp [hp])] at hl
      cases hfx : xs.filter p with
      | nil => rw [hfx] at hl; simp at hl
      | cons y ys =>
        rw [hfx, List.dropLast_cons₂] at hl
        rcases List.mem_cons.mp hl with rfl | hmem
        · have hxs : xs ≠ [] := by
            intro e
            rw [e] at hfx
            simp at hfx
          cases xs with
          | nil => exact absurd rfl hxs
          | cons a as => exact h2 l (by rw [List.dropLast_cons₂]; exact List.mem_cons_self _ _)
        · exact ih hx2 l (hfx ▸ hmem)

/-- The lines kept by `clear` re-split to themselves when read back. -/
lemma readlines_cleared_file (c : String) :
    readlines (joinLines ((readlines c).filter (fun l => !isTokenLine l)))
      = (readlines c).filter (fun l => !isTokenLine l) := by
  refine readlines_joinLines _ ?_ ?_
  · intro l hl
    exact readlines_wf l (List.mem_filter.mp hl).1
  · exact filter_dropLast_endsNl _ (readlines c) readlines_dropLast_endsNl

/-- C7, counterexample to the claim as stated: when the `.env` file exists
but is unreadable, `clear` swallows the I/O error (it does not raise), but
the token line survives in the file — the resulting state is not the claimed
absent state with no token line in the file.  (Idempotence and not raising do
hold; the "no token line in the file" conjunct is what fails.) -/
theorem clear_stored_token_cex :
    clear_stored_token { env := some "t", file := some "DRY_AI_TOKEN=t\n",
                         current := none, ioOk := false }
      = { env := none, file := some "DRY_AI_TOKEN=t\n", current := none, ioOk := false }
    ∧ hasTokenLine { env := none, file := some "DRY_AI_TOKEN=t\n",
                     current := none, ioOk := false } = true :=
  ⟨rfl, by decide⟩

/-- C7 (amended): for every starting store state, the state after one `clear`
equals the state after two, and neither call raises (`clear_stored_token` is
total: every file I/O exception is caught inside it); the environment entry
is always removed, and whenever the file I/O succeeds the resulting file
holds no (active or commented) token line.  When the file is unreadable its
token lines survive, as the counterexample shows. -/
theorem clear_stored_token_idempotent (s : Store) :
    clear_stored_token (clear_stored_token s) = clear_stored_token s ∧
    (clear_stored_token s).env = none ∧
    (s.ioOk = true → hasTokenLine (clear_stored_token s) = false) := by
  cases hf : s.file with
  | none =>
    have h1 : clear_stored_token s = { s with env := none } := by
      simp [clear_stored_token, hf]
    refine ⟨?_, by rw [h1], by intro _; simp [hasTokenLine, h1, hf]⟩
    rw [h1, show clear_stored_token { s with env := none } = { s with env := none } from by
      simp [clear_stored_token, hf]]
  | some c =>
    cases hio : s.ioOk with
    | false =>
      have h1 : clear_stored_token s = { s with env := none } := by
        simp [clear_stored_token, hf, hio]
      refine ⟨?_, by rw [h1], by intro h; exact absurd h (by simp)⟩
      rw [h1, show clear_stored_token { s with env := none } = { s with env := none } from by
        simp [clear_stored_token, hf, hio]]
    | true =>
      have h1 : clear_stored_token s
          = { s with env := none,
                     file := some (joinLines ((readlines c).filter (fun l => !isTokenLine l))) } := by
        simp [clear_stored_token, hf, hio]
      have hre := readlines_cleared_file c
      refine ⟨?_, by rw [h1], ?_⟩
      · rw [h1]
        simp only [clear_stored_token, hio, if_true]
        rw [hre, filter_idem]
      · intro _
        rw [h1]
        simp only [hasTokenLine, hre]
        rw [List.any_eq_false]
        intro x hx
        have := (List.mem_filter.mp hx).2
        simp at this
        simp [this]

/-- Witness for C7 at a concrete readable store holding a token line. -/
theorem clear_stored_token_idempotent_witness :
    clear_stored_token (clear_stored_token
        { env := some "t", file := some "A=1\nDRY_AI_TOKEN=t\n", current := none, ioOk := true })
      = clear_stored_token
        { env := some "t", file := some "A=1\nDRY_AI_TOKEN=t\n", current := none, ioOk := true }
    ∧ hasTokenLine (clear_stored_token
        { env := some "t", file := some "A=1\nDRY_AI_TOKEN=t\n", current := none, ioOk := true })
        = false :=
  ⟨(clear_stored_token_idempotent
      { env := some "t", file := some "A=1\nDRY_AI_TOKEN=t\n", current := none, ioOk := true }).1,
   (clear_stored_token_idempotent
      { env := some "t", file := some "A=1\nDRY_AI_TOKEN=t\n", current := none, ioOk := true }).2.2 rfl⟩

/-! ## Claim C8 -/

/-- C8: on a `verify-email` response indicating success (`success` and
`verified` both set), a missing (or empty, which Python's truthiness treats
the same) `mcpToken` makes `verify_email` raise the distinct protocol error
`No mcpToken returned from verification` with the store untouched; and when a
nonempty token is present (and file I/O succeeds), the token is persisted to
the token store — environment entry, current token, and a `get` now yields
it — and returned. -/
theorem verify_email_token_required (d : VerifyResponse) (s : Store) (hio : s.ioOk = true) :
    (d.success = true → d.verified = true → d.mcpToken.getD "" = "" →
       verify_email (.ok d) s = (.error "No mcpToken returned from verification", s)) ∧
    (∀ t, d.success = true → d.verified = true → d.mcpToken = some t → t ≠ "" →
       ∃ s1, verify_email (.ok d) s = (.ok t, s1) ∧ s1.env = some t ∧ s1.current = some t ∧
         get_stored_token s1 = some t) := by
  constructor
  · intro h1 h2 h3
    simp [verify_email, h1, h2, h3]
  · intro t h1 h2 h3 h4
    refine ⟨{ env := some t, file := some (joinLines (updatedLines t (envLines s))),
              current := some t, ioOk := true }, ?_, rfl, rfl, ?_⟩
    · simp [verify_email, h1, h2, h3, h4, @save_token_ok t s hio]
    · simp [get_stored_token, h4]

/-- Witness for C8: successful verification with token `tok2` on an empty store. -/
theorem verify_email_token_required_witness :
    ∃ s1, verify_email (.ok ⟨true, true, some "tok2", none, false⟩)
        { env := none, file := none, current := none, ioOk := true } = (.ok "tok2", s1) ∧
      s1.env = some "tok2" ∧ s1.current = some "tok2" ∧ get_stored_token s1 = some "tok2" :=
  (verify_email_token_required ⟨true, true, some "tok2", none, false⟩
      { env := none, file := none, current := none, ioOk := true } rfl).2
    "tok2" rfl rfl rfl (by decide)

/-! ## Claim C9 -/

/-- C9: `authenticate_user` always returns either the credential obtained by
the verify step or nothing (every raised failure is caught, so nothing
propagates to the caller), and performs each of its steps at most once — its
step trace is always a prefix of `[register, prompt, verify]`; a registration
failure, an empty (stripped) verification code, or a failing verification
each ends the attempt with an absent result and no retry. -/
theorem authenticate_user_no_retry (netReg : Except String RegResponse) (input : String)
    (netVer : Except String VerifyResponse) (s : Store) :
    ((authenticate_user netReg input netVer s).2.2 = [.register]
      ∨ (authenticate_user netReg input netVer s).2.2 = [.register, .prompt]
      ∨ (authenticate_user netReg input netVer s).2.2 = [.register, .prompt, .verify]) ∧
    ((authenticate_user netReg input netVer s).1 = none
      ∨ ∃ t, (authenticate_user netReg input netVer s).1 = some t
          ∧ (verify_email netVer s).1 = .ok t) ∧
    (∀ e, netReg = .error e →
       authenticate_user netReg input netVer s = (none, s, [.register])) ∧
    (String.mk (pyStripL input.data) = "" →
       (authenticate_user netReg input netVer s).1 = none) ∧
    (∀ d, netVer = .ok d → d.success = false →
       (authenticate_user netReg input netVer s).1 = none) := by
  cases netReg with
  | error e =>
    exact ⟨Or.inl rfl, Or.inl rfl, fun _ _ => rfl, fun _ => rfl, fun _ _ _ => rfl⟩
  | ok data =>
    cases hs : data.success with
    | false =>
      have hred : authenticate_user (.ok data) input netVer s = (none, s, [.register]) := by
        simp [authenticate_user, register_or_login, hs]
      rw [hred]
      exact ⟨Or.inl rfl, Or.inl rfl, fun _ _ => rfl, fun _ => rfl, fun _ _ _ => rfl⟩
    | true =>
      cases hu : data.userId with
      | none =>
        have hred : authenticate_user (.ok data) input netVer s = (none, s, [.register]) := by
          simp [authenticate_user, register_or_login, hs, hu]
        rw [hred]
        exact ⟨Or.inl rfl, Or.inl rfl, fun _ _ => rfl, fun _ => rfl, fun _ _ _ => rfl⟩
      | some uid =>
        by_cases huid : uid = ""
        · have hred : authenticate_user (.ok data) input netVer s = (none, s, [.register]) := by
            simp [authenticate_user, register_or_login, hs, hu, huid]
          rw [hred]
          exact ⟨Or.inl rfl, Or.inl rfl, fun _ _ => rfl, fun _ => rfl, fun _ _ _ => rfl⟩
        · by_cases hcode : String.mk (pyStripL input.data) = ""
          · have hred : authenticate_user (.ok data) input netVer s
                = (none, s, [.register, .prompt]) := by
              simp [authenticate_user, register_or_login, hs, hu, huid, hcode]
            rw [hred]
            exact ⟨Or.inr (Or.inl rfl), Or.inl rfl, fun _ he => Except.noConfusion he,
                   fun _ => rfl, fun _ _ _ => rfl⟩
          · rcases hveq : verify_email netVer s with ⟨r, s1⟩
            cases r with
            | ok t =>
              have hred : authenticate_user (.ok data) input netVer s
                  = (some t, s1, [.register, .prompt, .verify]) := by
                simp [authenticate_user, register_or_login, hs, hu, huid, hcode, hveq]
              rw [hred]
              refine ⟨Or.inr (Or.inr rfl), Or.inr ⟨t, rfl, rfl⟩,
                      fun _ he => Except.noConfusion he,
                      fun hc => absurd hc hcode, fun d hd hds => ?_⟩
              subst hd
              rw [show verify_email (.ok d) s
                    = (.error (d.message.getD "Email verification failed"), s) from by
                  simp [verify_email, hds]] at hveq
              exact absurd (congrArg Prod.fst hveq) (by simp)
            | error em =>
              have hred : authenticate_user (.ok data) input netVer s
                  = (none, s1, [.register, .prompt, .verify]) := by
                simp [authenticate_user, register_or_login, hs, hu, huid, hcode, hveq]
              rw [hred]
              exact ⟨Or.inr (Or.inr rfl), Or.inl rfl, fun _ he => Except.noConfusion he,
                     fun _ => rfl, fun _ _ _ => rfl⟩

/-- Witness for C9: a transport failure at registration ends the flow at once
with an absent result and only the register step performed. -/
theorem authenticate_user_no_retry_witness :
    authenticate_user (.error "boom") "code" (.ok ⟨true, true, some "tk", none, false⟩)
        { env := none, file := none, current := none, ioOk := true }
      = (none, { env := none, file := none, current := none, ioOk := true }, [.register]) :=
  ((authenticate_user_no_retry (.error "boom") "code"
      (.ok ⟨true, true, some "tk", none, false⟩)
      { env := none, file := none, current := none, ioOk := true }).2.2.1) "boom" rfl

/-! ## Claim C10 -/

lemma assocFind_eq_none {V : Type} {data : List (String × V)} {k : String}
    (h : ∀ kv ∈ data, kv.1 ≠ k) : assocFind data k = none := by
  induction data with
  | nil => rfl
  | cons x xs ih =>
    obtain ⟨k1, v1⟩ := x
    have hx : ¬(k1 = k) := h (k1, v1) (List.mem_cons_self _ _)
    simp only [assocFind, hx, if_false]
    exact ih (fun kv hkv => h kv (List.mem_cons_of_mem _ hkv))

lemma findCaseInsensitive_eq_none {V : Type} {data : List (String × V)} {n : String}
    (h : ∀ kv ∈ data, pyLower kv.1 ≠ pyLower n) : findCaseInsensitive data n = none := by
  induction data with
  | nil => rfl
  | cons x xs ih =>
    obtain ⟨k1, v1⟩ := x
    have hx : ¬(pyLower k1 = pyLower n) := h (k1, v1) (List.mem_cons_self _ _)
    simp only [findCaseInsensitive, hx, if_false]
    exact ih (fun kv hkv => h kv (List.mem_cons_of_mem _ hkv))

/-- C10: `DryAIItem.__getattr__` resolves an attribute name against the item
data in exactly this order — exact key, capitalized key, upper-cased key,
first case-insensitive match — returning the value of the first match, and
returns `None` (rather than raising) when no key matches under any of these
foldings. -/
theorem dryAIItem_getattr_order {V : Type} (data : List (String × V)) (name : String) :
    (∀ v, assocFind data name = some v → dryAIItem_getattr data name = some v) ∧
    (assocFind data name = none →
      ∀ v, assocFind data (pyCapitalize name) = some v →
        dryAIItem_getattr data name = some v) ∧
    (assocFind data name = none → assocFind data (pyCapitalize name) = none →
      ∀ v, assocFind data (pyUpper name) = some v →
        dryAIItem_getattr data name = some v) ∧
    (assocFind data name = none → assocFind data (pyCapitalize name) = none →
      assocFind data (pyUpper name) = none →
      dryAIItem_getattr data name = findCaseInsensitive data name) ∧
    ((∀ kv ∈ data, kv.1 ≠ name ∧ kv.1 ≠ pyCapitalize name ∧ kv.1 ≠ pyUpper name
        ∧ pyLower kv.1 ≠ pyLower name) →
      dryAIItem_getattr data name = none) := by
  refine ⟨?_, ?_, ?_, ?_, ?_⟩
  · intro v h
    simp [dryAIItem_getattr, h]
  · intro h0 v h
    simp [dryAIItem_getattr, h0, h]
  · intro h0 h1 v h
    simp [dryAIItem_getattr, h0, h1, h]
  · intro h0 h1 h2
    simp [dryAIItem_getattr, h0, h1, h2]
  · intro h
    have h0 := assocFind_eq_none (fun kv hkv => (h kv hkv).1)
    have h1 := assocFind_eq_none (fun kv hkv => (h kv hkv).2.1)
    have h2 := assocFind_eq_none (fun kv hkv => (h kv hkv).2.2.1)
    have h3 := findCaseInsensitive_eq_none (fun kv hkv => (h kv hkv).2.2.2)
    simp [dryAIItem_getattr, h0, h1, h2, h3]

/-- Witness for C10: `item.priority` finds the capitalized key `Priority`. -/
theorem dryAIItem_getattr_order_witness :
    dryAIItem_getattr [("Priority", "high")] "priority" = some "high" :=
  (dryAIItem_getattr_order [("Priority", "high")] "priority").2.1 (by decide) "high" (by decide)
